import Mathlib

/-!
Verification of the CodeMaster commit-message rewrite engine.

Shallow embedding of the Python sources:
  * `src/batch_rewrite.py`   (namespace `BatchRewrite`): `get_scope_from_message`,
    `rewrite_message`, `process_batch`.
  * `src/msg_filter.py`      (namespace `MsgFilter`): `get_scope_from_message`
    (this variant's rule table has no `test-mock` rule).
  * `src/rewrite_messages.py` (namespace `RewriteMessages`): `rewrite_message`.

Strings are modelled as `List Char`.  Python regular expressions used by the
sources are compiled by hand into decidable scanners; each scanner's doc
comment names the regex it embeds.  Python character classes `\d` and `\w`
and `str.lower()` are modelled over the ASCII range (all rule keywords and
pattern literals in the sources are ASCII).

A Python call that can raise (`re.search(...).group(1)` on a possibly-`None`
search result, `batch_rewrite.py` line 103) is modelled as `Option`:
`none` is a raised exception.
-/

/-- Python `pat in s` (substring containment) on `List Char`. -/
def isSubstring (pat : List Char) : List Char → Bool
  | [] => pat.isPrefixOf []
  | c :: rest => pat.isPrefixOf (c :: rest) || isSubstring pat rest

/-- Python `\w` (word character), ASCII range: letters, digits, underscore. -/
def isWordChar (c : Char) : Bool := c.isAlphanum || c == '_'

/-- Consume `\d+` (one or more digits, greedy): `none` if the input does not
start with a digit, otherwise the remainder after the maximal digit run. -/
def dropDigits1 : List Char → Option (List Char)
  | [] => none
  | c :: rest => if c.isDigit then some (rest.dropWhile Char.isDigit) else none

/-- Scanner for the regex fragment `[^)]*\):` at the head of the input
(the close of a conventional-commit scope group). -/
def scopeTail : List Char → Bool
  | [] => false
  | c :: rest =>
    if c = ')' then (match rest with | ':' :: _ => true | _ => false)
    else scopeTail rest

/-- Scanner for the regex fragment `[^)]+\):` at the head of the input. -/
def scopePlus : List Char → Bool
  | [] => false
  | c :: rest => if c = ')' then false else scopeTail rest

/-- Scanner for the regex fragment `\([^)]+\):` at the head of the input. -/
def convAfterTy : List Char → Bool
  | '(' :: u => scopePlus u
  | _ => false

/-- `re.match(r'^(ty1|ty2|...)\([^)]+\):', s)` as a Boolean, for a list of
alternative type keywords `tys`. -/
def matchesConvScoped : List (List Char) → List Char → Bool
  | [], _ => false
  | ty :: tys, s =>
    (ty.isPrefixOf s && convAfterTy (s.drop ty.length)) || matchesConvScoped tys s

/-- The `(.+)` group after `ty ++ ": "`: `.` does not match a newline, so the
description is the run of characters up to the first newline, and the match
fails when that run is empty. -/
def untaggedAfter (ty : List Char) (s : List Char) :
    Option (List Char × List Char) :=
  match s.drop (ty.length + 2) with
  | [] => none
  | c :: cs =>
    if c = '\n' then none
    else some (ty, (c :: cs).takeWhile (fun d => d != '\n'))

/-- `re.match(r'^(ty1|...): (.+)', s)`: returns the matching type keyword and
the description group.  An alternative whose `": "` head matches but whose
description group is empty fails, and the engine moves to the next
alternative (which cannot match either: no keyword is a prefix of another). -/
def matchUntagged : List (List Char) → List Char → Option (List Char × List Char)
  | [], _ => none
  | ty :: tys, s =>
    if (ty ++ [':', ' ']).isPrefixOf s then
      match untaggedAfter ty s with
      | some r => some r
      | none => matchUntagged tys s
    else matchUntagged tys s

/-- One pass of `re.sub`: scan left to right; where the matcher `m` fires it
returns the replacement text and the remainder after the match, and scanning
resumes there; otherwise keep one character and move on.  The fuel argument
is the scan length; every matcher used in this development consumes at least
one character, so fuel `s.length` never runs out. -/
def subAllRF (m : List Char → Option (List Char × List Char)) :
    Nat → List Char → List Char
  | 0, s => s
  | _ + 1, [] => []
  | f + 1, c :: rest =>
    match m (c :: rest) with
    | some (rep, r) => rep ++ subAllRF m f r
    | none => c :: subAllRF m f rest

/-- `re.sub(pattern, repl, s)` driven by the matcher `m` for the pattern. -/
def subAllR (m : List Char → Option (List Char × List Char)) (s : List Char) :
    List Char :=
  subAllRF m s.length s

/-- Matcher for a literal pattern `pat` with replacement `rep`. -/
def mReplace (pat rep : List Char) (t : List Char) :
    Option (List Char × List Char) :=
  if pat.isPrefixOf t then some (rep, t.drop pat.length) else none

/-- Python `s.replace(pat, rep)`: replace every (leftmost, non-overlapping)
occurrence of `pat` by `rep`. -/
def replaceAll (pat rep : List Char) (s : List Char) : List Char :=
  subAllR (mReplace pat rep) s

/-- `re.sub('^pat', rep, s)` for a literal anchored pattern: replace the
prefix once if it is there. -/
def anchoredSub (pat rep s : List Char) : List Char :=
  if pat.isPrefixOf s then rep ++ s.drop pat.length else s

/-- Scanner for the non-greedy regex fragment `.*?\)`: consume up to and
including the first `)` (`.` does not match a newline). -/
def lazyClose : List Char → Option (List Char)
  | [] => none
  | c :: rest =>
    if c = ')' then some rest
    else if c = '\n' then none
    else lazyClose rest

/-- Scanner for the greedy regex fragment `.*\)`: consume up to and including
the last `)` reachable without crossing a newline. -/
def greedyClose : List Char → Option (List Char)
  | [] => none
  | c :: rest =>
    if c = ')' then some (match greedyClose rest with | some r => r | none => rest)
    else if c = '\n' then none
    else greedyClose rest

/-- The literal ` (batch ` that opens every batch-marker pattern. -/
def batchPat : List Char := " (batch ".data

/-- Consume ` \(batch \d+/\d+\)` at the head of the input; remainder after. -/
def batchNMAfter (s : List Char) : Option (List Char) :=
  if batchPat.isPrefixOf s then
    match dropDigits1 (s.drop batchPat.length) with
    | some ('/' :: u) =>
      (match dropDigits1 u with
        | some (')' :: v) => some v
        | _ => none)
    | _ => none
  else none

/-- Deletion matcher for `re.sub(r' \(batch \d+/\d+\)', '', _)`. -/
def mBatchNM (s : List Char) : Option (List Char × List Char) :=
  (batchNMAfter s).map (fun v => ([], v))

/-- Deletion matcher for `re.sub(r' \(batch \d+/n.*?\)', '', _)`. -/
def mBatchLazy (s : List Char) : Option (List Char × List Char) :=
  if batchPat.isPrefixOf s then
    match dropDigits1 (s.drop batchPat.length) with
    | some ('/' :: 'n' :: u) => (lazyClose u).map (fun v => (([] : List Char), v))
    | _ => none
  else none

/-- Deletion matcher for `re.sub(r' \(Phase \d+\)', '', _)`. -/
def mPhaseParen (s : List Char) : Option (List Char × List Char) :=
  if " (Phase ".data.isPrefixOf s then
    match dropDigits1 (s.drop " (Phase ".data.length) with
    | some (')' :: v) => some ([], v)
    | _ => none
  else none

/-- Does ` - Phase \d` match at the head of the input? -/
def phaseTailAt (s : List Char) : Bool :=
  " - Phase ".data.isPrefixOf s &&
    (match s.drop " - Phase ".data.length with
      | c :: _ => c.isDigit
      | [] => false)

/-- `re.sub(r' - Phase \d+.*$', '', s)`: truncate at the leftmost ` - Phase N`.
The call sites feed regex group `(.+)` output, which is newline-free, so `$`
is end of input and `.*` reaches it. -/
def stripPhaseTail : List Char → List Char
  | [] => []
  | c :: rest => if phaseTailAt (c :: rest) then [] else c :: stripPhaseTail rest

/-- The literal `reduce complexity in `. -/
def rcPat : List Char := "reduce complexity in ".data

/-- `re.match(r'reduce complexity in \w+', d)` as a Boolean. -/
def rcAt (d : List Char) : Bool :=
  rcPat.isPrefixOf d &&
    (match d.drop rcPat.length with
      | c :: _ => isWordChar c
      | [] => false)

/-- `re.search(r'reduce complexity in (\w+)', d)`: group 1 of the leftmost
match, `none` when there is no match. -/
def searchReduce : List Char → Option (List Char)
  | [] => none
  | c :: rest =>
    if rcAt (c :: rest) then
      some (((c :: rest).drop rcPat.length).takeWhile isWordChar)
    else searchReduce rest

/-- Return the scope of the first rule whose (already evaluated) predicate
holds; `core` when none does (the `if`/`return` chain of the classifiers). -/
def firstScope : List (Bool × List Char) → List Char
  | [] => "core".data
  | (b, sc) :: rest => if b then sc else firstScope rest

namespace BatchRewrite

/-- The primary conventional-commit type keywords of `batch_rewrite.py`
(both the `^(...)\([^)]+\):` check and the `^(...): (.+)` check):
`feat|fix|docs|refactor|test|chore|perf`. -/
def types7 : List (List Char) :=
  ["feat".data, "fix".data, "docs".data, "refactor".data,
   "test".data, "chore".data, "perf".data]

/-- The ordered rule table of `batch_rewrite.get_scope_from_message` from
the `session` rule on (lines 20-54), over the lowercased message `ml`
(Python `msg_lower`): each entry is the keyword predicate of one `if` and
the scope it returns, in source order. -/
def scopeRuleList (ml : List Char) : List (Bool × List Char) :=
  [ (isSubstring "session".data ml, "session".data),
    (isSubstring "problem".data ml, "problem".data),
    (isSubstring "background".data ml || isSubstring "handler".data ml,
      "background".data),
    (isSubstring "lint".data ml || isSubstring "eslint".data ml, "lint".data),
    (isSubstring "database".data ml || isSubstring "indexeddb".data ml
      || isSubstring "db".data ml, "database".data),
    (isSubstring "ui".data ml || isSubstring "component".data ml
      || isSubstring "css".data ml, "ui".data),
    (isSubstring "analytics".data ml || isSubstring "dashboard".data ml,
      "dashboard".data),
    (isSubstring "hint".data ml, "hint".data),
    (isSubstring "manifest".data ml, "manifest".data),
    (isSubstring "onboarding".data ml, "onboarding".data),
    (isSubstring "ci".data ml || isSubstring "workflow".data ml, "ci".data),
    (isSubstring "doc".data ml || isSubstring "readme".data ml, "docs".data) ]

/-- The rule table of `batch_rewrite.get_scope_from_message`, with the
original message `msg` and its lowercased form `ml` passed separately.  The
leading `test`/`jest`/`mock` rule (lines 15-18) nests a `mock` refinement;
the first keyword check (`'test' in msg`) is against the raw message,
case-sensitively, all others against the lowercased one. -/
def scopeRuleTable (msg ml : List Char) : List Char :=
  if isSubstring "test".data msg || isSubstring "jest".data ml
      || isSubstring "mock".data ml then
    (if isSubstring "mock".data ml then "test-mock".data else "test".data)
  else firstScope (scopeRuleList ml)

/-- `batch_rewrite.get_scope_from_message` (lines 10-57): compute
`msg_lower = msg.lower()` and run the rule table. -/
def get_scope_from_message (msg : List Char) : List Char :=
  scopeRuleTable msg (msg.map Char.toLower)

/-- `f"{ty}({scope}): {d}"`. -/
def buildConv (ty scope d : List Char) : List Char :=
  ty ++ "(".data ++ scope ++ "): ".data ++ d

/-- Lines 92-100 of `batch_rewrite.py`: strip the batch and phase markers
from the description and collapse the `extract helpers` boilerplate. -/
def descPipeline (desc : List Char) : List Char :=
  let d4 := subAllR mPhaseParen
    (stripPhaseTail (subAllR mBatchLazy (subAllR mBatchNM desc)))
  if isSubstring "extract helpers from background/index.js".data d4
    then "extract message routing helpers".data else d4

/-- The conventional-untagged arm of `batch_rewrite.rewrite_message`
(lines 87-109): scope from the description, noise stripping, boilerplate
collapsing, and reassembly.  `none` models the `AttributeError` that line 103
would raise if `re.search` found no match. -/
def untaggedRewrite (ty desc msg : List Char) : Option (List Char × Bool) :=
  match (if rcAt (descPipeline desc) then
      (searchReduce (descPipeline desc)).map (fun w => rcPat ++ w)
    else some (descPipeline desc)) with
  | none => none
  | some d6 =>
    some (buildConv ty (get_scope_from_message desc) d6,
      !(decide (buildConv ty (get_scope_from_message desc) d6 = msg)))

/-- `batch_rewrite.rewrite_message` (lines 59-109).  Returns the rewritten
subject paired with the `changed` flag; `none` models a raised exception. -/
def rewrite_message (msg : List Char) : Option (List Char × Bool) :=
  if matchesConvScoped types7 msg then some (msg, false)
  else if "WIP:".data.isPrefixOf msg then
    some ("# SQUASH THIS: ".data ++ msg, true)
  else if "checkpoint:".data.isPrefixOf msg then
    some (replaceAll "checkpoint:".data
      ("chore(".data ++ get_scope_from_message msg ++ "):".data) msg, true)
  else if "Merge pull request".data.isPrefixOf msg
      || "Merge branch".data.isPrefixOf msg then some (msg, false)
  else
    match matchUntagged types7 msg with
    | none => some (msg, false)
    | some (ty, desc) => untaggedRewrite ty desc msg

/-- No dispatch pattern of `rewrite_message` recognizes the subject: the
universal fallback arm applies. -/
def unrecognized (s : List Char) : Bool :=
  !matchesConvScoped types7 s && !"WIP:".data.isPrefixOf s
    && !"checkpoint:".data.isPrefixOf s
    && !("Merge pull request".data.isPrefixOf s || "Merge branch".data.isPrefixOf s)
    && (matchUntagged types7 s).isNone

/-- `batch_rewrite.process_batch` (lines 111-131), from the point where the
ordered `(hash, subject)` records are in hand: rewrite each subject and
collect `(hash, old, new)` for the records whose flag is set, in order.
`none` models an exception escaping the loop. -/
def process_batch :
    List (List Char × List Char) → Option (List (List Char × List Char × List Char))
  | [] => some []
  | (h, m) :: rest =>
    match rewrite_message m with
    | none => none
    | some (nm, ch) =>
      match process_batch rest with
      | none => none
      | some tail => some (if ch then (h, m, nm) :: tail else tail)

/-- The report entry `process_batch` should produce for one record: the
`(identifier, old, new)` triple when the rewritten subject differs from the
input subject, nothing otherwise. -/
def reportEntry (r : List Char × List Char) :
    Option (List Char × List Char × List Char) :=
  match rewrite_message r.2 with
  | none => none
  | some q => if q.1 = r.2 then none else some (r.1, r.2, q.1)

end BatchRewrite

namespace MsgFilter

/-- The ordered rule table of `msg_filter.get_scope_from_message` from the
`session` rule on (lines 12-35), over the lowercased message `ml`: each
entry is the keyword predicate of one `if` and the scope it returns, in
source order.  This variant's `database` rule has no `indexeddb` keyword,
its `ui` rule has no `css`, its `dashboard` rule lists `dashboard` before
`analytics`, and its `docs` rule has no `readme`. -/
def scopeRuleList (ml : List Char) : List (Bool × List Char) :=
  [ (isSubstring "session".data ml, "session".data),
    (isSubstring "problem".data ml, "problem".data),
    (isSubstring "background".data ml || isSubstring "handler".data ml,
      "background".data),
    (isSubstring "lint".data ml || isSubstring "eslint".data ml, "lint".data),
    (isSubstring "database".data ml || isSubstring "db".data ml,
      "database".data),
    (isSubstring "ui".data ml || isSubstring "component".data ml, "ui".data),
    (isSubstring "dashboard".data ml || isSubstring "analytics".data ml,
      "dashboard".data),
    (isSubstring "hint".data ml, "hint".data),
    (isSubstring "manifest".data ml, "manifest".data),
    (isSubstring "onboarding".data ml, "onboarding".data),
    (isSubstring "ci".data ml || isSubstring "workflow".data ml, "ci".data),
    (isSubstring "doc".data ml, "docs".data) ]

/-- `msg_filter.get_scope_from_message` (lines 6-36).  Its leading rule
(lines 10-11) returns plain `test` whenever `'test' in msg` (raw,
case-sensitive) or `'jest'`/`'mock'` is in the lowercased message: unlike
the `batch_rewrite.py` classifier, it has no nested `mock` refinement and no
`test-mock` scope at all. -/
def get_scope_from_message (msg : List Char) : List Char :=
  if isSubstring "test".data msg
      || isSubstring "jest".data (msg.map Char.toLower)
      || isSubstring "mock".data (msg.map Char.toLower) then "test".data
  else firstScope (scopeRuleList (msg.map Char.toLower))

end MsgFilter

namespace RewriteMessages

/-- The type keywords of `rewrite_messages.py`'s already-canonical check
(line 14): `feat|fix|docs|refactor|test|chore` (no `perf`). -/
def types6 : List (List Char) :=
  ["feat".data, "fix".data, "docs".data, "refactor".data,
   "test".data, "chore".data]

/-- The literal head of the pattern on lines 19-22. -/
def extractPat : List Char :=
  "refactor: extract helpers from background/index.js (batch ".data

/-- Matcher for
`refactor: extract helpers from background/index\.js \(batch \d+/n\)`
with its fixed replacement (lines 18-22). -/
def mExtractHelpers (s : List Char) : Option (List Char × List Char) :=
  if extractPat.isPrefixOf s then
    match dropDigits1 (s.drop extractPat.length) with
    | some ('/' :: 'n' :: ')' :: v) =>
      some ("refactor(background): extract message routing helpers".data, v)
    | _ => none
  else none

/-- The literal head of the pattern on lines 24-28. -/
def rcHeadPat : List Char := "refactor: reduce complexity in ".data

/-- Matcher for `refactor: reduce complexity in (\w+) \(batch \d+/\d+\)` with
replacement `refactor(test): reduce complexity in \1` (lines 24-28). -/
def mReduceComplexity (s : List Char) : Option (List Char × List Char) :=
  if rcHeadPat.isPrefixOf s then
    let t := s.drop rcHeadPat.length
    let w := t.takeWhile isWordChar
    if w = [] then none
    else (batchNMAfter (t.dropWhile isWordChar)).map
      (fun v => ("refactor(test): reduce complexity in ".data ++ w, v))
  else none

/-- The literal head of the pattern on lines 30-34. -/
def mdHeadPat : List Char := "refactor: reduce max-depth in ".data

/-- Matcher for `refactor: reduce max-depth in (\w+) \(batch \d+/\d+\)` with
replacement `refactor(test): reduce max-depth in \1` (lines 30-34). -/
def mReduceMaxDepth (s : List Char) : Option (List Char × List Char) :=
  if mdHeadPat.isPrefixOf s then
    let t := s.drop mdHeadPat.length
    let w := t.takeWhile isWordChar
    if w = [] then none
    else (batchNMAfter (t.dropWhile isWordChar)).map
      (fun v => ("refactor(test): reduce max-depth in ".data ++ w, v))
  else none

/-- The literal head of the pattern on lines 36-40. -/
def mdwPat : List Char :=
  "refactor: reduce max-depth warnings in test functions".data

/-- Matcher for
`refactor: reduce max-depth warnings in test functions \(batch \d+/\d+\)`
with its fixed replacement (lines 36-40). -/
def mMaxDepthWarnings (s : List Char) : Option (List Char × List Char) :=
  if mdwPat.isPrefixOf s then
    (batchNMAfter (s.drop mdwPat.length)).map
      (fun v => ("refactor(test): reduce max-depth warnings in test functions".data, v))
  else none

/-- Deletion matcher for `re.sub(r' \(batch \d+/n.*\)', '', _)` (line 77,
greedy tail). -/
def mBatchGreedy (s : List Char) : Option (List Char × List Char) :=
  if batchPat.isPrefixOf s then
    match dropDigits1 (s.drop batchPat.length) with
    | some ('/' :: 'n' :: u) => (greedyClose u).map (fun v => (([] : List Char), v))
    | _ => none
  else none

/-- `rewrite_messages.rewrite_message` lines 50-79: the scope-adding rules
for `test:`, `chore:`, `fix:` and `refactor:` subjects, then the cleanup
substitutions. -/
def scopeRules (m0 : List Char) : List Char :=
  let m1 := if "test: ".data.isPrefixOf m0 then
      anchoredSub "test: add".data "test(unit): add".data
        (anchoredSub "test: fix".data "test(fix): fix".data
          (anchoredSub "test: update mock".data "test(mock): update mock".data m0))
    else m0
  let m2 := if "chore: ".data.isPrefixOf m1 && !isSubstring "(config)".data m1 then
      (if isSubstring "manifest".data m1 then
        anchoredSub "chore:".data "chore(manifest):".data m1
      else anchoredSub "chore:".data "chore(config):".data m1)
    else m1
  let m3 := if "fix: ".data.isPrefixOf m2 && !isSubstring "(".data m2 then
      (if isSubstring "session".data (m2.map Char.toLower) then
        anchoredSub "fix:".data "fix(session):".data m2
      else if isSubstring "problem".data (m2.map Char.toLower) then
        anchoredSub "fix:".data "fix(problem):".data m2
      else anchoredSub "fix:".data "fix(core):".data m2)
    else m2
  let m4 := if "refactor: extract".data.isPrefixOf m3
      && isSubstring "handler".data (m3.map Char.toLower) then
      anchoredSub "refactor:".data "refactor(handler):".data m3
    else m3
  let m5 := if "refactor: remove".data.isPrefixOf m4 then
      anchoredSub "refactor:".data "refactor(cleanup):".data m4
    else m4
  subAllR mBatchGreedy (subAllR mPhaseParen m5)

/-- Lines 46-79 of `rewrite_messages.py` from the WIP check on: return
`None` for a work-in-progress subject, otherwise run the scope-adding and
cleanup rules. -/
def rmWipGate (m5 : List Char) : Option (List Char) :=
  if "WIP:".data.isPrefixOf m5 then none
  else some (scopeRules m5)

/-- Lines 43-47 of `rewrite_messages.py`: the anchored
`re.sub(r'^checkpoint:', 'chore(lint):', _)` under its `startswith` guard,
then the WIP gate. -/
def rmAfterSubs (m4 : List Char) : Option (List Char) :=
  rmWipGate (if "checkpoint:".data.isPrefixOf m4 then
      "chore(lint):".data ++ m4.drop "checkpoint:".data.length
    else m4)

/-- `rewrite_messages.rewrite_message` (lines 10-79).  This variant returns
`None` (here `none`) for work-in-progress subjects, and a string otherwise.
The four batch-marker substitutions of lines 18-40 run in source order
(innermost first). -/
def rewrite_message (msg : List Char) : Option (List Char) :=
  if matchesConvScoped types6 msg then some msg
  else
    rmAfterSubs (subAllR mMaxDepthWarnings (subAllR mReduceMaxDepth
      (subAllR mReduceComplexity (subAllR mExtractHelpers msg))))

end RewriteMessages

section ListLemmas

/-- A nonempty pattern whose head differs from `c` is not a prefix of
`c :: t`. -/
lemma pfx_false_of_head_ne (pat : List Char) (c : Char) (t : List Char)
    (hne : pat ≠ []) (h : ¬ pat.head? = some c) :
    pat.isPrefixOf (c :: t) = false := by
  cases pat with
  | nil => exact absurd rfl hne
  | cons a as =>
    simp only [List.head?, Option.some.injEq] at h
    simp [List.isPrefixOf, beq_eq_false_iff_ne, h]

/-- Prefix testing against `l ++ t` only looks at `l` when the pattern is no
longer than `l`. -/
lemma pfx_append_of_le (pat : List Char) :
    ∀ (l t : List Char), pat.length ≤ l.length →
      pat.isPrefixOf (l ++ t) = pat.isPrefixOf l := by
  induction pat with
  | nil => intro l t _; simp [List.isPrefixOf]
  | cons a as ih =>
    intro l t hl
    cases l with
    | nil => simp at hl
    | cons b bs =>
      simp only [List.cons_append, List.isPrefixOf]
      rw [show bs.append t = bs ++ t from rfl, ih bs t (Nat.le_of_succ_le_succ hl)]

/-- A list is a prefix of itself followed by anything. -/
lemma pfx_append_self (p t : List Char) : p.isPrefixOf (p ++ t) = true := by
  simp [List.isPrefixOf_iff_prefix]

end ListLemmas

section ScannerLemmas

/-- No keyword in `tys` can start a conventional-scoped match of `c :: t`
when every keyword is nonempty with a head other than `c`. -/
lemma conv_head_ne (tys : List (List Char)) (c : Char) (t : List Char)
    (h : ∀ ty ∈ tys, ty ≠ [] ∧ ¬ ty.head? = some c) :
    matchesConvScoped tys (c :: t) = false := by
  induction tys with
  | nil => rfl
  | cons ty tys ih =>
    have hty := h ty (by simp)
    have hpf : ty.isPrefixOf (c :: t) = false :=
      pfx_false_of_head_ne ty c t hty.1 hty.2
    simp only [matchesConvScoped, hpf, Bool.false_and, Bool.false_or]
    exact ih (fun ty' hm => h ty' (by simp [hm]))

/-- No keyword in `tys` matches a subject of the form `l ++ t` when every
keyword fits inside `l` and fails against `l`. -/
lemma conv_block (tys : List (List Char)) (l t : List Char)
    (h : ∀ ty ∈ tys, ty.length ≤ l.length ∧ ty.isPrefixOf l = false) :
    matchesConvScoped tys (l ++ t) = false := by
  induction tys with
  | nil => rfl
  | cons ty tys ih =>
    have hty := h ty (by simp)
    have hpf : ty.isPrefixOf (l ++ t) = false := by
      rw [pfx_append_of_le ty l t hty.1]; exact hty.2
    simp only [matchesConvScoped, hpf, Bool.false_and, Bool.false_or]
    exact ih (fun ty' hm => h ty' (by simp [hm]))

/-- `scopeTail` accepts when the pending characters before `'):'` avoid `)`. -/
lemma scopeTail_app (cs : List Char) (t : List Char)
    (h : ∀ c ∈ cs, ¬ c = ')') :
    scopeTail (cs ++ ')' :: ':' :: t) = true := by
  induction cs with
  | nil => simp [scopeTail]
  | cons c cs ih =>
    have hc : ¬ c = ')' := h c (by simp)
    simp only [List.cons_append, scopeTail, if_neg hc]
    exact ih (fun c' hm => h c' (by simp [hm]))

/-- A subject of the shape `ty ++ "(" ++ scope ++ "):" ++ t` with `ty` a
recognized keyword and a nonempty scope free of `)` passes the
already-canonical check. -/
lemma conv_mk (tys : List (List Char)) (ty : List Char) (hmem : ty ∈ tys)
    (scope t : List Char) (hs : scope ≠ []) (hp : ∀ c ∈ scope, ¬ c = ')') :
    matchesConvScoped tys (ty ++ '(' :: (scope ++ ')' :: ':' :: t)) = true := by
  induction tys with
  | nil => exact absurd hmem (List.not_mem_nil ty)
  | cons ty' tys ih =>
    rcases List.mem_cons.mp hmem with heq | hm
    · subst heq
      have h1 : ty.isPrefixOf (ty ++ '(' :: (scope ++ ')' :: ':' :: t)) = true :=
        pfx_append_self ty _
      have h2 : convAfterTy ((ty ++ '(' :: (scope ++ ')' :: ':' :: t)).drop ty.length)
          = true := by
        rw [List.drop_left ty]
        cases scope with
        | nil => exact absurd rfl hs
        | cons c cs =>
          have hc : ¬ c = ')' := hp c (by simp)
          simp only [convAfterTy, List.cons_append, scopePlus, if_neg hc]
          exact scopeTail_app cs t (fun c' hm => hp c' (by simp [hm]))
      simp only [matchesConvScoped, h1, h2, Bool.true_and, Bool.true_or]
    · simp only [matchesConvScoped]
      rw [ih hm]
      simp

/-- `matchUntagged` finds nothing when no keyword followed by `": "` can
start the subject. -/
lemma untagged_head_ne (tys : List (List Char)) (c : Char) (t : List Char)
    (h : ∀ ty ∈ tys, ¬ (ty ++ [':', ' ']).head? = some c) :
    matchUntagged tys (c :: t) = none := by
  induction tys with
  | nil => rfl
  | cons ty tys ih =>
    have hne : ty ++ [':', ' '] ≠ [] := by simp
    have hpf : (ty ++ [':', ' ']).isPrefixOf (c :: t) = false :=
      pfx_false_of_head_ne _ c t hne (h ty (by simp))
    simp only [matchUntagged, hpf, Bool.false_eq_true, if_false]
    exact ih (fun ty' hm => h ty' (by simp [hm]))

/-- The keyword part of a successful `untaggedAfter` is the keyword given. -/
lemma untaggedAfter_fst (ty s : List Char) (r : List Char × List Char)
    (h : untaggedAfter ty s = some r) : r.1 = ty := by
  unfold untaggedAfter at h
  split at h
  · exact absurd h (by simp)
  · split at h
    · exact absurd h (by simp)
    · have := (Option.some.injEq _ _).mp h
      rw [← this]

/-- The keyword returned by `matchUntagged` is one of the alternatives. -/
lemma untagged_mem (tys : List (List Char)) (s ty d : List Char)
    (h : matchUntagged tys s = some (ty, d)) : ty ∈ tys := by
  induction tys with
  | nil => exact absurd h (by simp [matchUntagged])
  | cons ty' tys ih =>
    by_cases hpf : (ty' ++ [':', ' ']).isPrefixOf s = true
    · rw [matchUntagged, if_pos hpf] at h
      cases hafter : untaggedAfter ty' s with
      | none => rw [hafter] at h; exact List.mem_cons_of_mem _ (ih h)
      | some r =>
        rw [hafter] at h
        have hr : r = (ty, d) := (Option.some.injEq _ _).mp h
        have := untaggedAfter_fst ty' s r hafter
        rw [hr] at this
        exact this ▸ List.mem_cons_self _ _
    · rw [matchUntagged, if_neg hpf] at h
      exact List.mem_cons_of_mem _ (ih h)

end ScannerLemmas

section SubEngineLemmas

/-- Where the matcher does not fire, one character is kept and scanning
moves on. -/
lemma subAllRF_cons_none (m : List Char → Option (List Char × List Char))
    (f : Nat) (c : Char) (t : List Char) (h : m (c :: t) = none) :
    subAllRF m (f + 1) (c :: t) = c :: subAllRF m f t := by
  simp [subAllRF, h]

/-- For a matcher that always consumes at least one character, any fuel at
least the input length gives the same scan result. -/
lemma subAllRF_irrel (m : List Char → Option (List Char × List Char))
    (hm : ∀ s rep r, m s = some (rep, r) → r.length < s.length) :
    ∀ f₁ f₂ s, s.length ≤ f₁ → s.length ≤ f₂ →
      subAllRF m f₁ s = subAllRF m f₂ s := by
  intro f₁
  induction f₁ with
  | zero =>
    intro f₂ s h1 _
    have hs : s = [] := List.eq_nil_of_length_eq_zero (Nat.le_zero.mp h1)
    subst hs
    cases f₂ <;> simp [subAllRF]
  | succ f ih =>
    intro f₂ s h1 h2
    cases s with
    | nil => cases f₂ <;> simp [subAllRF]
    | cons c rest =>
      cases f₂ with
      | zero => simp at h2
      | succ g =>
        cases hm' : m (c :: rest) with
        | none =>
          rw [subAllRF_cons_none m f c rest hm', subAllRF_cons_none m g c rest hm',
            ih g rest (Nat.le_of_succ_le_succ h1) (Nat.le_of_succ_le_succ h2)]
        | some pr =>
          obtain ⟨rep, r⟩ := pr
          have hlt : r.length < (c :: rest).length := hm _ _ _ hm'
          have hr1 : r.length ≤ f := Nat.le_of_lt_succ (Nat.lt_of_lt_of_le hlt h1)
          have hr2 : r.length ≤ g := Nat.le_of_lt_succ (Nat.lt_of_lt_of_le hlt h2)
          simp only [subAllRF, hm']
          rw [ih g r hr1 hr2]

/-- `subAllR` where the matcher does not fire at the head. -/
lemma subAllR_cons_none (m : List Char → Option (List Char × List Char))
    (c : Char) (t : List Char) (h : m (c :: t) = none) :
    subAllR m (c :: t) = c :: subAllR m t := by
  unfold subAllR
  rw [show (c :: t).length = t.length + 1 from rfl,
    subAllRF_cons_none m t.length c t h]

/-- `subAllR` where the matcher fires at the head of the input. -/
lemma subAllR_fire (m : List Char → Option (List Char × List Char))
    (hm : ∀ s rep r, m s = some (rep, r) → r.length < s.length)
    (s rep r : List Char) (h : m s = some (rep, r)) :
    subAllR m s = rep ++ subAllR m r := by
  cases s with
  | nil => exact absurd (hm _ _ _ h) (by simp)
  | cons c rest =>
    unfold subAllR
    rw [show (c :: rest).length = rest.length + 1 from rfl]
    simp only [subAllRF, h]
    have hlt : r.length < (c :: rest).length := hm _ _ _ h
    rw [subAllRF_irrel m hm rest.length r.length r (Nat.le_of_lt_succ hlt) le_rfl]

/-- The literal-replacement matcher consumes at least one character when the
pattern is nonempty. -/
lemma mReplace_shrink (pat rep : List Char) (hpat : pat ≠ []) :
    ∀ s rp r, mReplace pat rep s = some (rp, r) → r.length < s.length := by
  intro s rp r h
  unfold mReplace at h
  by_cases hp : pat.isPrefixOf s = true
  · rw [if_pos hp] at h
    have hr : r = s.drop pat.length := by
      have h2 := (Option.some.injEq _ _).mp h
      rw [Prod.mk.injEq] at h2
      exact h2.2.symm
    have hlen : pat.length ≤ s.length :=
      (List.isPrefixOf_iff_prefix.mp hp).length_le
    have hpos : 0 < pat.length := List.length_pos.mpr hpat
    rw [hr, List.length_drop]
    exact Nat.sub_lt (Nat.lt_of_lt_of_le hpos hlen) hpos
  · rw [if_neg hp] at h
    exact absurd h (by simp)

/-- `replace` keeps a character that does not start an occurrence. -/
lemma replaceAll_cons (pat rep : List Char) (c : Char) (t : List Char)
    (h : pat.isPrefixOf (c :: t) = false) :
    replaceAll pat rep (c :: t) = c :: replaceAll pat rep t :=
  subAllR_cons_none _ _ _ (by unfold mReplace; simp [h])

/-- `replace` on a string that starts with the pattern substitutes there and
continues after it. -/
lemma replaceAll_head (pat rep t : List Char) (hpat : pat ≠ []) :
    replaceAll pat rep (pat ++ t) = rep ++ replaceAll pat rep t := by
  apply subAllR_fire _ (mReplace_shrink pat rep hpat)
  unfold mReplace
  rw [if_pos (pfx_append_self pat t), List.drop_left]

/-- `replace` on a string with no occurrence of the pattern is the
identity. -/
lemma replaceAll_absent (pat rep : List Char) :
    ∀ s, isSubstring pat s = false → replaceAll pat rep s = s := by
  intro s
  induction s with
  | nil =>
    intro _
    rfl
  | cons c rest ih =>
    intro h
    unfold isSubstring at h
    simp only [Bool.or_eq_false_iff] at h
    rw [replaceAll_cons pat rep c rest h.1, ih h.2]

end SubEngineLemmas

namespace BatchRewrite

/-- A property holding for `core` and for every rule's scope holds for the
result of the rule fold. -/
lemma firstScope_good (P : List Char → Prop) (hcore : P "core".data) :
    ∀ rules : List (Bool × List Char),
      (∀ sc ∈ rules.map Prod.snd, P sc) → P (firstScope rules) := by
  intro rules
  induction rules with
  | nil => intro _; exact hcore
  | cons r rest ih =>
    intro h
    obtain ⟨b, sc⟩ := r
    cases b
    · have hstep : firstScope ((false, sc) :: rest) = firstScope rest := by
        simp [firstScope]
      rw [hstep]
      refine ih ?_
      intro sc' hr
      refine h sc' ?_
      simp only [List.map_cons]
      exact List.mem_cons_of_mem _ hr
    · have hstep : firstScope ((true, sc) :: rest) = sc := by
        simp [firstScope]
      rw [hstep]
      exact h sc (by simp)

/-- Every scope the classifier can return is nonempty and free of `)`. -/
lemma scope_good (m : List Char) :
    get_scope_from_message m ≠ [] ∧
      ∀ c ∈ get_scope_from_message m, ¬ c = ')' := by
  unfold get_scope_from_message scopeRuleTable
  cases isSubstring "test".data m || isSubstring "jest".data (m.map Char.toLower)
      || isSubstring "mock".data (m.map Char.toLower)
  · simp only [Bool.false_eq_true, if_false]
    exact firstScope_good (fun sc => sc ≠ [] ∧ ∀ c ∈ sc, ¬ c = ')')
      (by decide) _
      (by simp only [scopeRuleList, List.map_cons, List.map_nil]; decide)
  · simp only [if_true]
    cases isSubstring "mock".data (m.map Char.toLower)
    · simp only [Bool.false_eq_true, if_false]; exact ⟨by decide, by decide⟩
    · simp only [if_true]; exact ⟨by decide, by decide⟩

/-- Where the `reduce complexity in \w+` guard holds at the head, the search
finds its leftmost match there and group 1 is the maximal word run. -/
lemma rc_search (d : List Char) (h : rcAt d = true) :
    searchReduce d = some ((d.drop rcPat.length).takeWhile isWordChar) := by
  cases d with
  | nil => exact absurd h (by decide)
  | cons c rest =>
    unfold searchReduce
    rw [if_pos h]

/-- The untagged arm always produces a value, of the canonical
`ty(scope): d` shape with the scope classified from the description. -/
lemma untagged_some (ty desc msg : List Char) :
    ∃ d6, untaggedRewrite ty desc msg =
      some (buildConv ty (get_scope_from_message desc) d6,
        !(decide (buildConv ty (get_scope_from_message desc) d6 = msg))) := by
  unfold untaggedRewrite
  by_cases hrc : rcAt (descPipeline desc) = true
  · rw [if_pos hrc, rc_search _ hrc]
    exact ⟨rcPat ++ ((descPipeline desc).drop rcPat.length).takeWhile isWordChar, rfl⟩
  · rw [if_neg hrc]
    exact ⟨descPipeline desc, rfl⟩

/-- Branch lemma: the already-canonical arm. -/
lemma rw_conv (msg : List Char) (h1 : matchesConvScoped types7 msg = true) :
    rewrite_message msg = some (msg, false) := by
  unfold rewrite_message
  rw [if_pos h1]

/-- Branch lemma: the work-in-progress arm. -/
lemma rw_wip (msg : List Char) (h1 : matchesConvScoped types7 msg = false)
    (h2 : "WIP:".data.isPrefixOf msg = true) :
    rewrite_message msg = some ("# SQUASH THIS: ".data ++ msg, true) := by
  unfold rewrite_message
  rw [if_neg (by simp [h1]), if_pos h2]

/-- Branch lemma: the checkpoint arm. -/
lemma rw_ckpt (msg : List Char) (h1 : matchesConvScoped types7 msg = false)
    (h2 : "WIP:".data.isPrefixOf msg = false)
    (h3 : "checkpoint:".data.isPrefixOf msg = true) :
    rewrite_message msg = some (replaceAll "checkpoint:".data
      ("chore(".data ++ get_scope_from_message msg ++ "):".data) msg, true) := by
  unfold rewrite_message
  rw [if_neg (by simp [h1]), if_neg (by simp [h2]), if_pos h3]

/-- Branch lemma: the merge arm. -/
lemma rw_merge (msg : List Char) (h1 : matchesConvScoped types7 msg = false)
    (h2 : "WIP:".data.isPrefixOf msg = false)
    (h3 : "checkpoint:".data.isPrefixOf msg = false)
    (h4 : ("Merge pull request".data.isPrefixOf msg
      || "Merge branch".data.isPrefixOf msg) = true) :
    rewrite_message msg = some (msg, false) := by
  unfold rewrite_message
  rw [if_neg (by simp [h1]), if_neg (by simp [h2]), if_neg (by simp [h3]),
    if_pos h4]

/-- Branch lemma: the universal fallback arm. -/
lemma rw_fallback (msg : List Char) (h1 : matchesConvScoped types7 msg = false)
    (h2 : "WIP:".data.isPrefixOf msg = false)
    (h3 : "checkpoint:".data.isPrefixOf msg = false)
    (h4 : ("Merge pull request".data.isPrefixOf msg
      || "Merge branch".data.isPrefixOf msg) = false)
    (h5 : matchUntagged types7 msg = none) :
    rewrite_message msg = some (msg, false) := by
  unfold rewrite_message
  rw [if_neg (by simp [h1]), if_neg (by simp [h2]), if_neg (by simp [h3]),
    if_neg (by simp [h4]), h5]

/-- Branch lemma: the conventional-untagged arm. -/
lemma rw_untagged (msg ty desc : List Char)
    (h1 : matchesConvScoped types7 msg = false)
    (h2 : "WIP:".data.isPrefixOf msg = false)
    (h3 : "checkpoint:".data.isPrefixOf msg = false)
    (h4 : ("Merge pull request".data.isPrefixOf msg
      || "Merge branch".data.isPrefixOf msg) = false)
    (h5 : matchUntagged types7 msg = some (ty, desc)) :
    rewrite_message msg = untaggedRewrite ty desc msg := by
  unfold rewrite_message
  rw [if_neg (by simp [h1]), if_neg (by simp [h2]), if_neg (by simp [h3]),
    if_neg (by simp [h4]), h5]

/-- The engine is total: every subject yields a value (the one guarded
fallible step can never fire its failure case). -/
lemma rw_total (msg : List Char) : ∃ p, rewrite_message msg = some p := by
  cases h1 : matchesConvScoped types7 msg with
  | true => exact ⟨_, rw_conv msg h1⟩
  | false =>
    cases h2 : "WIP:".data.isPrefixOf msg with
    | true => exact ⟨_, rw_wip msg h1 h2⟩
    | false =>
      cases h3 : "checkpoint:".data.isPrefixOf msg with
      | true => exact ⟨_, rw_ckpt msg h1 h2 h3⟩
      | false =>
        cases h4 : ("Merge pull request".data.isPrefixOf msg
            || "Merge branch".data.isPrefixOf msg) with
        | true => exact ⟨_, rw_merge msg h1 h2 h3 h4⟩
        | false =>
          cases h5 : matchUntagged types7 msg with
          | none => exact ⟨_, rw_fallback msg h1 h2 h3 h4 h5⟩
          | some pr =>
            obtain ⟨ty, desc⟩ := pr
            obtain ⟨d6, hd6⟩ := untagged_some ty desc msg
            exact ⟨_, (rw_untagged msg ty desc h1 h2 h3 h4 h5).trans hd6⟩

end BatchRewrite


namespace BatchRewrite

/-- Componentwise consequences of an `Option`-level result equation. -/
lemma pair_eq {p1 X : List Char} {p2 fl : Bool}
    (h : some (X, fl) = some (p1, p2)) : p1 = X ∧ p2 = fl := by
  have h2 := (Option.some.injEq _ _).mp h
  rw [Prod.mk.injEq] at h2
  exact ⟨h2.1.symm, h2.2.symm⟩

/-- Two cons-chains differing at their third element are different lists. -/
lemma cons3_ne (a b c a' b' c' : Char) (t t' : List Char) (h : ¬ c = c') :
    ¬ (a :: b :: c :: t = a' :: b' :: c' :: t') := by
  intro he
  injection he with h1 he
  injection he with h2 he
  injection he with h3 _
  exact h h3

/-- A checkpoint output (a `chore(`-headed string) never equals a
`checkpoint:`-headed string: they differ at the third character. -/
lemma rep_ne_ck (sc R rest : List Char) :
    ¬ (("chore(".data ++ sc ++ "):".data) ++ R = "checkpoint:".data ++ rest) := by
  intro heq
  have heq2 : 'c' :: 'h' :: 'o' :: ('r' :: 'e' :: '(' :: ((sc ++ "):".data) ++ R))
      = 'c' :: 'h' :: 'e' :: ('c' :: 'k' :: 'p' :: 'o' :: 'i' :: 'n' :: 't' :: ':' :: rest) :=
    heq
  exact cons3_ne _ _ _ _ _ _ _ _ (by decide) heq2

/-- Reassociation of the checkpoint replacement text into the head shape of
the already-canonical scanner. -/
lemma chore_shuffle (sc R : List Char) :
    ("chore(".data ++ sc ++ "):".data) ++ R
      = "chore".data ++ '(' :: (sc ++ ')' :: ':' :: R) := by
  have h1 : ("chore(".data ++ sc ++ "):".data) ++ R
      = "chore(".data ++ (sc ++ ("):".data ++ R)) := by
    simp [List.append_assoc]
  rw [h1]
  rfl

/-- Reassociation of `f"{ty}({scope}): {d}"` into the head shape of the
already-canonical scanner. -/
lemma buildConv_shuffle (ty sc d : List Char) :
    buildConv ty sc d = ty ++ '(' :: (sc ++ ')' :: ':' :: (' ' :: d)) := by
  unfold buildConv
  have h1 : ty ++ "(".data ++ sc ++ "): ".data ++ d
      = ty ++ ("(".data ++ (sc ++ ("): ".data ++ d))) := by
    simp [List.append_assoc]
  rw [h1]
  rfl

/-- The `changed` flag is set exactly when the produced subject differs from
the input subject, on every arm of the dispatch. -/
lemma rw_changed (msg : List Char) (p1 : List Char) (p2 : Bool)
    (h : rewrite_message msg = some (p1, p2)) : p2 = true ↔ ¬ p1 = msg := by
  cases h1 : matchesConvScoped types7 msg with
  | true =>
    obtain ⟨e1, e2⟩ := pair_eq ((rw_conv msg h1).symm.trans h)
    rw [e1, e2]
    simp
  | false =>
    cases h2 : "WIP:".data.isPrefixOf msg with
    | true =>
      obtain ⟨e1, e2⟩ := pair_eq ((rw_wip msg h1 h2).symm.trans h)
      rw [e1, e2]
      simp only [true_iff]
      intro heq
      have hl := congrArg List.length heq
      rw [List.length_append, show ("# SQUASH THIS: ".data).length = 15 from rfl] at hl
      omega
    | false =>
      cases h3 : "checkpoint:".data.isPrefixOf msg with
      | true =>
        obtain ⟨rest, hrest⟩ := List.isPrefixOf_iff_prefix.mp h3
        subst hrest
        obtain ⟨e1, e2⟩ := pair_eq ((rw_ckpt _ h1 h2 h3).symm.trans h)
        rw [e1, e2]
        simp only [true_iff]
        rw [replaceAll_head _ _ _ (by decide)]
        exact rep_ne_ck _ _ _
      | false =>
        cases h4 : ("Merge pull request".data.isPrefixOf msg
            || "Merge branch".data.isPrefixOf msg) with
        | true =>
          obtain ⟨e1, e2⟩ := pair_eq ((rw_merge msg h1 h2 h3 h4).symm.trans h)
          rw [e1, e2]
          simp
        | false =>
          cases h5 : matchUntagged types7 msg with
          | none =>
            obtain ⟨e1, e2⟩ := pair_eq ((rw_fallback msg h1 h2 h3 h4 h5).symm.trans h)
            rw [e1, e2]
            simp
          | some pr =>
            obtain ⟨ty, desc⟩ := pr
            obtain ⟨d6, hd6⟩ := untagged_some ty desc msg
            obtain ⟨e1, e2⟩ := pair_eq
              (((rw_untagged msg ty desc h1 h2 h3 h4 h5).trans hd6).symm.trans h)
            rw [e1, e2]
            simp

/-- Applying the engine to any subject it has produced is a no-op with a
clear `changed` flag. -/
lemma rw_second (msg : List Char) (p1 : List Char) (p2 : Bool)
    (h : rewrite_message msg = some (p1, p2)) :
    rewrite_message p1 = some (p1, false) := by
  cases h1 : matchesConvScoped types7 msg with
  | true =>
    obtain ⟨e1, _⟩ := pair_eq ((rw_conv msg h1).symm.trans h)
    rw [e1]
    exact rw_conv msg h1
  | false =>
    cases h2 : "WIP:".data.isPrefixOf msg with
    | true =>
      obtain ⟨e1, _⟩ := pair_eq ((rw_wip msg h1 h2).symm.trans h)
      rw [e1]
      rw [show "# SQUASH THIS: ".data ++ msg
          = '#' :: (" SQUASH THIS: ".data ++ msg) from rfl]
      apply rw_fallback
      · exact conv_head_ne types7 '#' _ (by decide)
      · exact pfx_false_of_head_ne _ _ _ (by decide) (by decide)
      · exact pfx_false_of_head_ne _ _ _ (by decide) (by decide)
      · rw [pfx_false_of_head_ne "Merge pull request".data '#' _ (by decide) (by decide),
          pfx_false_of_head_ne "Merge branch".data '#' _ (by decide) (by decide)]
        rfl
      · exact untagged_head_ne types7 '#' _ (by decide)
    | false =>
      cases h3 : "checkpoint:".data.isPrefixOf msg with
      | true =>
        obtain ⟨rest, hrest⟩ := List.isPrefixOf_iff_prefix.mp h3
        subst hrest
        obtain ⟨e1, _⟩ := pair_eq ((rw_ckpt _ h1 h2 h3).symm.trans h)
        obtain ⟨hs, hpns⟩ := scope_good ("checkpoint:".data ++ rest)
        have hshape : p1 = "chore".data
            ++ '(' :: (get_scope_from_message ("checkpoint:".data ++ rest)
              ++ ')' :: ':' :: replaceAll "checkpoint:".data
                ("chore(".data ++ get_scope_from_message ("checkpoint:".data ++ rest)
                  ++ "):".data) rest) := by
          rw [e1, replaceAll_head _ _ _ (by decide)]
          exact chore_shuffle _ _
        rw [hshape]
        exact rw_conv _ (conv_mk types7 "chore".data (by decide) _ _ hs hpns)
      | false =>
        cases h4 : ("Merge pull request".data.isPrefixOf msg
            || "Merge branch".data.isPrefixOf msg) with
        | true =>
          obtain ⟨e1, _⟩ := pair_eq ((rw_merge msg h1 h2 h3 h4).symm.trans h)
          rw [e1]
          exact rw_merge msg h1 h2 h3 h4
        | false =>
          cases h5 : matchUntagged types7 msg with
          | none =>
            obtain ⟨e1, _⟩ := pair_eq ((rw_fallback msg h1 h2 h3 h4 h5).symm.trans h)
            rw [e1]
            exact rw_fallback msg h1 h2 h3 h4 h5
          | some pr =>
            obtain ⟨ty, desc⟩ := pr
            obtain ⟨d6, hd6⟩ := untagged_some ty desc msg
            obtain ⟨e1, _⟩ := pair_eq
              (((rw_untagged msg ty desc h1 h2 h3 h4 h5).trans hd6).symm.trans h)
            obtain ⟨hs, hpns⟩ := scope_good desc
            have hshape : p1 = ty ++ '(' :: (get_scope_from_message desc
                ++ ')' :: ':' :: (' ' :: d6)) := by
              rw [e1]
              exact buildConv_shuffle ty _ d6
            rw [hshape]
            exact rw_conv _
              (conv_mk types7 ty (untagged_mem types7 msg ty desc h5) _ _ hs hpns)

end BatchRewrite

/-- A pattern with head `a` is not a prefix of `c :: t` when `c ≠ a`. -/
lemma pfx_false_of_ne_head (pat : List Char) (a c : Char) (t : List Char)
    (hh : pat.head? = some a) (hne : ¬ c = a) :
    pat.isPrefixOf (c :: t) = false := by
  apply pfx_false_of_head_ne pat c t
  · intro hnil
    rw [hnil] at hh
    exact absurd hh (by simp)
  · intro hsc
    rw [hh] at hsc
    exact hne ((Option.some.injEq _ _).mp hsc).symm

namespace BatchRewrite

/-- The report entry of a record, in terms of its rewrite result. -/
lemma reportEntry_eq (hsh m nm : List Char) (ch : Bool)
    (hq : rewrite_message m = some (nm, ch)) :
    reportEntry (hsh, m) = if nm = m then none else some (hsh, m, nm) := by
  unfold reportEntry
  simp only [hq]

/-- The batch driver succeeds on every record list and reports exactly the
records whose rewritten subject differs from the input, in order. -/
lemma pb_spec (recs : List (List Char × List Char)) :
    process_batch recs = some (recs.filterMap reportEntry) := by
  induction recs with
  | nil => rfl
  | cons r rest ih =>
    obtain ⟨hsh, m⟩ := r
    obtain ⟨q, hq⟩ := rw_total m
    obtain ⟨nm, ch⟩ := q
    have hiff := rw_changed m nm ch hq
    simp only [process_batch, hq, ih, List.filterMap_cons,
      reportEntry_eq hsh m nm ch hq]
    cases hch : ch with
    | true =>
      have hne : ¬ nm = m := hiff.mp hch
      simp [hne]
    | false =>
      have heq : nm = m := by
        by_contra hn
        rw [hch] at hiff
        exact absurd (hiff.mpr hn) (by simp)
      simp [heq]

end BatchRewrite

namespace RewriteMessages

/-- The extract-helpers matcher ignores positions that do not start with
`r`. -/
lemma mExtract_ne (c : Char) (t : List Char) (hc : ¬ c = 'r') :
    mExtractHelpers (c :: t) = none := by
  unfold mExtractHelpers
  rw [pfx_false_of_ne_head extractPat 'r' c t (by decide) hc]
  rfl

/-- The reduce-complexity matcher ignores positions that do not start with
`r`. -/
lemma mRC_ne (c : Char) (t : List Char) (hc : ¬ c = 'r') :
    mReduceComplexity (c :: t) = none := by
  unfold mReduceComplexity
  rw [pfx_false_of_ne_head rcHeadPat 'r' c t (by decide) hc]
  rfl

/-- The reduce-max-depth matcher ignores positions that do not start with
`r`. -/
lemma mRMD_ne (c : Char) (t : List Char) (hc : ¬ c = 'r') :
    mReduceMaxDepth (c :: t) = none := by
  unfold mReduceMaxDepth
  rw [pfx_false_of_ne_head mdHeadPat 'r' c t (by decide) hc]
  rfl

/-- The max-depth-warnings matcher ignores positions that do not start with
`r`. -/
lemma mMDW_ne (c : Char) (t : List Char) (hc : ¬ c = 'r') :
    mMaxDepthWarnings (c :: t) = none := by
  unfold mMaxDepthWarnings
  rw [pfx_false_of_ne_head mdwPat 'r' c t (by decide) hc]
  rfl

/-- A substitution whose matcher only fires at `r`-headed positions passes a
`WIP:` prefix through untouched. -/
lemma subAllR_wip (m : List Char → Option (List Char × List Char))
    (hm : ∀ c t, ¬ c = 'r' → m (c :: t) = none) (u : List Char) :
    subAllR m ("WIP:".data ++ u) = "WIP:".data ++ subAllR m u := by
  show subAllRF m ("WIP:".data ++ u).length ("WIP:".data ++ u) = _
  rw [show ("WIP:".data ++ u).length = u.length + 4 from by
    simp [List.length_append]]
  rw [show "WIP:".data ++ u = 'W' :: ('I' :: ('P' :: (':' :: u))) from rfl]
  rw [show u.length + 4 = (u.length + 3) + 1 from rfl,
    subAllRF_cons_none m _ 'W' _ (hm 'W' _ (by decide))]
  rw [show u.length + 3 = (u.length + 2) + 1 from rfl,
    subAllRF_cons_none m _ 'I' _ (hm 'I' _ (by decide))]
  rw [show u.length + 2 = (u.length + 1) + 1 from rfl,
    subAllRF_cons_none m _ 'P' _ (hm 'P' _ (by decide))]
  rw [subAllRF_cons_none m _ ':' _ (hm ':' _ (by decide))]
  rfl

/-- Every `WIP:`-headed subject is mapped to `None` by this variant: the
preceding substitutions cannot touch the prefix, and the WIP check fires. -/
lemma rm3_wip (rest : List Char) :
    rewrite_message ("WIP:".data ++ rest) = none := by
  unfold rewrite_message
  have hconv : matchesConvScoped types6 ("WIP:".data ++ rest) = false := by
    rw [show "WIP:".data ++ rest = 'W' :: ('I' :: 'P' :: ':' :: rest) from rfl]
    exact conv_head_ne types6 'W' _ (by decide)
  rw [if_neg (show ¬ matchesConvScoped types6 ("WIP:".data ++ rest) = true from by
    rw [hconv]; decide)]
  rw [subAllR_wip _ mExtract_ne rest]
  rw [subAllR_wip _ mRC_ne _]
  rw [subAllR_wip _ mRMD_ne _]
  rw [subAllR_wip _ mMDW_ne _]
  unfold rmAfterSubs
  have hck : "checkpoint:".data.isPrefixOf ("WIP:".data
      ++ subAllR mMaxDepthWarnings (subAllR mReduceMaxDepth
        (subAllR mReduceComplexity (subAllR mExtractHelpers rest)))) = false := by
    rw [show "WIP:".data ++ subAllR mMaxDepthWarnings (subAllR mReduceMaxDepth
        (subAllR mReduceComplexity (subAllR mExtractHelpers rest)))
      = 'W' :: ('I' :: 'P' :: ':' :: subAllR mMaxDepthWarnings (subAllR mReduceMaxDepth
        (subAllR mReduceComplexity (subAllR mExtractHelpers rest)))) from rfl]
    exact pfx_false_of_ne_head _ 'c' 'W' _ (by decide) (by decide)
  rw [if_neg (show ¬ "checkpoint:".data.isPrefixOf ("WIP:".data
      ++ subAllR mMaxDepthWarnings (subAllR mReduceMaxDepth
        (subAllR mReduceComplexity (subAllR mExtractHelpers rest)))) = true from by
    rw [hck]; decide)]
  unfold rmWipGate
  rw [if_pos (pfx_append_self "WIP:".data _)]

end RewriteMessages

open BatchRewrite in
/-- C1: applying `rewrite_subject` twice is the same as applying it once:
the second run returns the first run's subject unchanged and reports
`changed = false`. -/
theorem C1_rewrite_idempotent (s p1 : List Char) (p2 : Bool) (q1 : List Char)
    (q2 : Bool) (h1 : rewrite_message s = some (p1, p2))
    (h2 : rewrite_message p1 = some (q1, q2)) : q1 = p1 ∧ q2 = false := by
  have hs := rw_second s p1 p2 h1
  have := pair_eq (hs.symm.trans h2)
  exact this

open BatchRewrite in
/-- C1 witness: the WIP subject `"WIP: x"` is rewritten once and the second
run is a no-op with a clear flag. -/
theorem C1_rewrite_idempotent_witness :
    "# SQUASH THIS: WIP: x".data = "# SQUASH THIS: WIP: x".data
      ∧ (false : Bool) = false :=
  C1_rewrite_idempotent "WIP: x".data "# SQUASH THIS: WIP: x".data true
    "# SQUASH THIS: WIP: x".data false (by decide) (by decide)

open BatchRewrite in
/-- C2: the `changed` flag returned by `rewrite_subject` is true exactly when
the returned subject differs byte-for-byte from the input, on every dispatch
arm - including the hardcoded `True` of the WIP and checkpoint arms. -/
theorem C2_changed_iff_differs (s p1 : List Char) (p2 : Bool)
    (h : rewrite_message s = some (p1, p2)) : p2 = true ↔ p1 ≠ s :=
  rw_changed s p1 p2 h

open BatchRewrite in
/-- C2 witness: on the batch-marker example the flag is true and the subject
indeed differs. -/
theorem C2_changed_iff_differs_witness :
    (true : Bool) = true
      ↔ "feat(session): add session UI".data
        ≠ "feat: add session UI (batch 3/10)".data :=
  C2_changed_iff_differs "feat: add session UI (batch 3/10)".data
    "feat(session): add session UI".data true (by decide)

/-- C3: the claim and the spec (whose scope table includes `test-mock` and
whose testable property asserts its precedence over generic `test`) are
contradicted by the cited `msg_filter.py` classifier: on the input
`"test mock"`, which contains both a raw `test` token and a `mock` token,
that variant returns `test` - it has no `test-mock` rule at all - while the
`batch_rewrite.py` classifier returns `test-mock` as the claim requires.
The two results differ, exhibiting the missing rule at a concrete failing
input. -/
theorem C3_mock_rule_missing :
    MsgFilter.get_scope_from_message "test mock".data = "test".data
      ∧ BatchRewrite.get_scope_from_message "test mock".data = "test-mock".data
      ∧ MsgFilter.get_scope_from_message "test mock".data
        ≠ BatchRewrite.get_scope_from_message "test mock".data :=
  ⟨by decide, by decide, by decide⟩

open BatchRewrite in
/-- C4 counterexample: on `"checkpoint: redo checkpoint: x"` the engine
replaces *both* occurrences of `checkpoint:` (Python `str.replace` replaces
all), so the remainder after the prefix is not preserved verbatim: the
output is not `chore(core):` followed by the original remainder. -/
theorem C4_checkpoint_counterexample :
    rewrite_message "checkpoint: redo checkpoint: x".data
        = some ("chore(core): redo chore(core): x".data, true)
      ∧ get_scope_from_message "checkpoint: redo checkpoint: x".data = "core".data
      ∧ "chore(core): redo chore(core): x".data
        ≠ "chore(core):".data ++ " redo checkpoint: x".data :=
  ⟨by decide, by decide, by decide⟩

open BatchRewrite in
/-- C4 amended: for a subject starting with `checkpoint:` whose remainder
contains no further `checkpoint:` occurrence, the engine classifies the
scope from the full original subject, rewrites the prefix to
`chore(<scope>):`, preserves the remainder verbatim, and reports
`changed = true`. -/
theorem C4_checkpoint_amended (rest : List Char)
    (hno : isSubstring "checkpoint:".data rest = false) :
    rewrite_message ("checkpoint:".data ++ rest)
      = some ("chore(".data
          ++ get_scope_from_message ("checkpoint:".data ++ rest)
          ++ "):".data ++ rest, true) := by
  have h1 : matchesConvScoped types7 ("checkpoint:".data ++ rest) = false :=
    conv_block types7 "checkpoint:".data rest (by decide)
  have h2 : "WIP:".data.isPrefixOf ("checkpoint:".data ++ rest) = false := by
    rw [pfx_append_of_le _ _ _ (by decide)]
    decide
  have h3 : "checkpoint:".data.isPrefixOf ("checkpoint:".data ++ rest) = true :=
    pfx_append_self _ _
  rw [rw_ckpt _ h1 h2 h3, replaceAll_head _ _ _ (by decide),
    replaceAll_absent _ _ rest hno]

open BatchRewrite in
/-- C4 witness: a checkpoint subject with an ordinary remainder. -/
theorem C4_checkpoint_amended_witness :
    rewrite_message ("checkpoint:".data ++ " fix lint".data)
      = some ("chore(".data
          ++ get_scope_from_message ("checkpoint:".data ++ " fix lint".data)
          ++ "):".data ++ " fix lint".data, true) :=
  C4_checkpoint_amended " fix lint".data (by decide)

open BatchRewrite in
/-- C5: `rewrite_subject` is total - every string input, the empty string
included, yields a result (the guarded fallible call never fails), and any
input matching no recognized pattern is returned unchanged with
`changed = false` by the universal fallback. -/
theorem C5_total_with_fallback (s : List Char) :
    ∃ p, rewrite_message s = some p
      ∧ (unrecognized s = true → p = (s, false)) := by
  obtain ⟨p, hp⟩ := rw_total s
  refine ⟨p, hp, fun hu => ?_⟩
  simp only [unrecognized, Bool.and_eq_true, Bool.not_eq_true',
    Option.isNone_iff_eq_none] at hu
  obtain ⟨⟨⟨⟨hc, hw⟩, hk⟩, hm⟩, hn⟩ := hu
  have := (rw_fallback s hc hw hk hm hn).symm.trans hp
  exact ((Option.some.injEq _ _).mp this).symm

open BatchRewrite in
/-- C5 witness: an unrecognized subject passes through unchanged. -/
theorem C5_total_with_fallback_witness :
    rewrite_message "hello world".data = some ("hello world".data, false) := by
  obtain ⟨p, hp, hu⟩ := C5_total_with_fallback "hello world".data
  rw [hu (by decide)] at hp
  exact hp

open BatchRewrite in
/-- C6: the batch-marker example: the marker is removed in full, the scope
is inferred as `session`, and the flag is set. -/
theorem C6_batch_marker_example :
    rewrite_message "feat: add session UI (batch 3/10)".data
      = some ("feat(session): add session UI".data, true) := by
  decide

open BatchRewrite in
/-- C7: the batch driver succeeds on every ordered record list and its
report holds exactly the records whose rewritten subject differs from the
input subject, in the original relative order, each as an
`(identifier, old, new)` triple. -/
theorem C7_driver_report (recs : List (List Char × List Char)) :
    process_batch recs = some (recs.filterMap reportEntry) :=
  pb_spec recs

open BatchRewrite in
/-- C8: the engine is a pure function of each subject alone: the driver's
output distributes over list concatenation (no dependence on commit order
or on any state carried across records), and the old/new subjects reported
for a record do not depend on its identifier. -/
theorem C8_purity :
    (∀ a b : List (List Char × List Char),
      process_batch (a ++ b) = (process_batch a).bind
        (fun x => (process_batch b).map (fun y => x ++ y)))
    ∧ (∀ (h1 h2 m : List Char),
      (process_batch [(h1, m)]).map (List.map (fun e => (e.2.1, e.2.2)))
        = (process_batch [(h2, m)]).map (List.map (fun e => (e.2.1, e.2.2)))) := by
  constructor
  · intro a b
    rw [pb_spec, pb_spec, pb_spec, List.filterMap_append]
    rfl
  · intro h1 h2 m
    rw [pb_spec, pb_spec]
    obtain ⟨q, hq⟩ := rw_total m
    obtain ⟨nm, ch⟩ := q
    simp only [List.filterMap, reportEntry_eq h1 m nm ch hq,
      reportEntry_eq h2 m nm ch hq]
    by_cases hnm : nm = m
    · simp [hnm]
    · simp [hnm]

open BatchRewrite in
/-- C9: the classifier's predicates are raw substring tests, not word-token
tests: `"build"` is classified `ui` because it contains `ui`, and
`"improve feedback"` is classified `database` because `feedback` contains
`db`; in general any text containing `db` (case-folded) on which no earlier
rule fires is classified `database`. -/
theorem C9_raw_substring_rules :
    get_scope_from_message "build".data = "ui".data
    ∧ get_scope_from_message "improve feedback".data = "database".data
    ∧ ∀ s : List Char,
        isSubstring "test".data s = false →
        isSubstring "jest".data (s.map Char.toLower) = false →
        isSubstring "mock".data (s.map Char.toLower) = false →
        isSubstring "session".data (s.map Char.toLower) = false →
        isSubstring "problem".data (s.map Char.toLower) = false →
        isSubstring "background".data (s.map Char.toLower) = false →
        isSubstring "handler".data (s.map Char.toLower) = false →
        isSubstring "lint".data (s.map Char.toLower) = false →
        isSubstring "eslint".data (s.map Char.toLower) = false →
        isSubstring "db".data (s.map Char.toLower) = true →
        get_scope_from_message s = "database".data := by
  refine ⟨by decide, by decide, ?_⟩
  intro s htest hjest hmock hsession hproblem hbackground hhandler hlint heslint hdb
  simp [get_scope_from_message, scopeRuleTable, scopeRuleList, firstScope,
    htest, hjest, hmock, hsession, hproblem, hbackground, hhandler, hlint,
    heslint, hdb]

open BatchRewrite in
/-- C9 witness: the general `db` rule fires on `"improve feedback"`. -/
theorem C9_raw_substring_rules_witness :
    get_scope_from_message "improve feedback".data = "database".data :=
  C9_raw_substring_rules.2.2 "improve feedback".data (by decide) (by decide)
    (by decide) (by decide) (by decide) (by decide) (by decide) (by decide)
    (by decide) (by decide)

/-- C10: in the `rewrite_messages.py` variant, every subject starting with
`WIP:` is mapped to `None` rather than to a string: this variant's result
type is effectively `Option string`, and its WIP output violates the
string-to-string interface the other variants satisfy. -/
theorem C10_wip_returns_none (rest : List Char) :
    RewriteMessages.rewrite_message ("WIP:".data ++ rest) = none :=
  RewriteMessages.rm3_wip rest
